import Mathlib

/-!
Verification development for the `MulticallService` module
(`src/packages/dai/src/eth/MulticallService.js`).

JavaScript strings are embedded as `List Char`; machine integers do not
occur in the modelled code.  Fallible operations (JS `throw`) are embedded
as `Except`-valued functions.  The external collaborators (the
`@makerdao/multicall` watcher, rxjs streams, lodash `merge`/`get`) are
modelled only to the extent the source exercises them, as documented on
each definition.
-/

set_option autoImplicit false

namespace Multicall

/-- JavaScript strings are modelled as lists of characters. -/
abbrev Str := List Char

/-- Embedding of JavaScript `s.split(c)` for a single-character separator
`c`: the list of maximal separator-free chunks; the result is never empty
and `"".split(c) = [""]`. -/
def splitOnChar (c : Char) (s : Str) : List Str :=
  s.foldr
    (fun ch acc =>
      match acc with
      | [] => [[ch]]
      | g :: rest => if ch = c then [] :: g :: rest else (ch :: g) :: rest)
    [[]]

/-- Embedding of the fragment clean-up in `destructureContractCall`
(source lines 110-113): `if (s[s.length - 1] === ')') return
s.substring(0, s.length - 1); else return s`. -/
def stripTrailingParen (s : Str) : Str :=
  match s.getLast? with
  | some ')' => s.dropLast
  | _ => s

/-- Result of parsing a contract-call signature (source line 125):
`callFnName`, `callTypes` and `returnTypes` are each a list of
comma-separated tokens with empty tokens discarded. -/
structure CallSignature where
  callFnName : List Str
  callTypes : List Str
  returnTypes : List Str
deriving DecidableEq, Repr

/-- Errors thrown by the modelled service methods.  `malformedCallSignature`
is the explicit `throw` at source line 121; `missingGroups` models the JS
`TypeError` raised at line 120 when the destructuring of the split result
leaves `returnTypes` equal to `undefined` (fewer than two `'('` in the
input); `arityCallArgs` and `arityReturnKeys` are the throws at lines
154 and 159; `undefinedReturnKey` models the JS `TypeError` at line 180
when `processedReturnKeys[idx]` is `undefined`. -/
inductive MCError where
  | malformedCallSignature
  | missingGroups
  | arityCallArgs
  | arityReturnKeys
  | undefinedReturnKey
deriving DecidableEq, Repr

/-- The processed fragment list of `destructureContractCall` (source lines
108-118): split the call string on `'('`, strip a trailing `')'` from each
fragment, split each fragment on `','`, and discard empty tokens. -/
def parsedFragments (call : Str) : List (List Str) :=
  ((splitOnChar '(' call).map stripTrailingParen).map
    (fun s => (splitOnChar ',' s).filter (fun x => x ≠ []))

/-- Embedding of `destructureContractCall` (source lines 107-126).  The JS
destructuring `[callFnName, callTypes, returnTypes]` takes the first three
processed fragments and ignores any further ones; when fewer than three
fragments exist, the subsequent `returnTypes.length` access raises a
`TypeError`, modelled as `MCError.missingGroups`. -/
def destructureContractCall (call : Str) : Except MCError CallSignature :=
  match parsedFragments call with
  | callFnName :: callTypes :: returnTypes :: _ =>
    if returnTypes.length < 1 then .error .malformedCallSignature
    else .ok ⟨callFnName, callTypes, returnTypes⟩
  | _ => .error .missingGroups

/-- The Observable Registry (`this.observableStore`, source line 18): a JS
object tree whose internal nodes map path segments to subtrees and whose
leaves are observable streams (of leaf payload type `σ`). -/
inductive RegTree (σ : Type) where
  | leaf (s : σ)
  | node (entries : List (Str × RegTree σ))

instance regTreeInhabited (σ : Type) : Inhabited (RegTree σ) := ⟨.node []⟩

variable {σ : Type} {τ : Type} {α : Type} {β : Type}

/-- Embedding of `item.reduceRight((obj, elem) => ({[elem]: obj}), stream)`
(source lines 184-187 and 222-225): the nested single-key object chain for
a path, with the stream at the innermost position. -/
def chainPath (path : List Str) (s : σ) : RegTree σ :=
  path.foldr (fun k t => .node [(k, t)]) (.leaf s)

/-- Embedding of lodash `get(store, path)` on a segment list (source
line 104): follow the keys of the path through the object tree; `none`
models JS `undefined` when a segment is missing or a non-object (stream)
is reached before the path ends. -/
def lookupReg : List Str → RegTree σ → Option (RegTree σ)
  | [], t => some t
  | _ :: _, .leaf _ => none
  | k :: rest, .node kvs =>
    match kvs.find? (fun kv => decide (kv.1 = k)) with
    | some kv => lookupReg rest kv.2
    | none => none

/-- Embedding of `merge({}, store, entry)` (source lines 191 and 219-226)
for the only shape of `entry` the source builds: the nested single-key
chain `chainPath path s` produced by `reduceRight`, as a pure value tree.
Lodash deep-merge walks matching keys recursively, appends keys missing
from the destination, and a stream (non-plain-object) source replaces the
destination value at its path wholesale — two leaves are never combined.
One case is simplified: when the path descends through an existing stream
leaf, lodash keeps the shared stream object and grafts the remaining
chain onto it, whereas this value tree shows the plain chain in its
place; the lookups proved below (prefix-incomparable or identical paths)
never traverse that case, and the reference-level graft is modelled
faithfully by `mergeH` and `lookupH`. -/
def insertPath : List Str → RegTree σ → σ → RegTree σ
  | [], _, s => .leaf s
  | k :: rest, .leaf _, s => .node [(k, chainPath rest s)]
  | k :: rest, .node kvs, s =>
    if kvs.any (fun kv => decide (kv.1 = k)) then
      .node (kvs.map (fun kv =>
        if kv.1 = k then (kv.1, insertPath rest kv.2 s) else kv))
    else
      .node (kvs ++ [(k, chainPath rest s)])

/-- Leaves stored in the Observable Registry.  `filtered key` is the
stream built at source lines 179-182,
`this._rootObservable.pipe(filter(({type}) => type === key),
map(({value}) => value))`, fully determined by its filter key;
`derivedStream tag` stands for an arbitrary stream produced by a derived
schema's combining function (opaque to this module, tagged by `α`). -/
inductive LeafStream (α : Type) where
  | filtered (key : Str)
  | derivedStream (tag : α)
deriving DecidableEq, Repr

/-- One typed result event `{type, value}` pushed through the Result
Stream by the batch executor (spec §3), with values of type `β`. -/
structure ResultEvent (β : Type) where
  type : Str
  value : β
deriving DecidableEq, Repr

/-- Observation semantics of the filtered view registered at source lines
179-182: given the Result Stream's emission history, the view delivers the
`value` field of exactly those events whose `type` equals the view's
key, in emission order. -/
def observeFiltered (key : Str) (history : List (ResultEvent β)) : List β :=
  (history.filter (fun ev => decide (ev.type = key))).map (fun ev => ev.value)

/-- One logical schema entry (source lines 138-145).  A call argument is a
pair of the argument value and an optional per-argument transform
(`callArgs` elements `[arg, cb]`); a return key is a pair of the key and
an optional decode transform, the latter plumbed through untouched, of
opaque type `τ`. -/
structure LogicalSchemaEntry (τ : Type) where
  contractName : Str
  contractCall : Str
  callArgs : List (Str × Option (Str → Str))
  callArgsOverrides : Option (List Str)
  returnKeys : List (Str × Option τ)
  observableKeys : List (List Str)

/-- One batch-executor call descriptor as appended at source lines
194-201: `{target: addresses[contractName], call: [contractCall,
...processedCallArgs], returns: processedReturnKeys}`.  The `target` is
`none` when the address table has no entry for the contract name (JS
`undefined`). -/
structure CallDescriptor (τ : Type) where
  target : Option Str
  call : List Str
  returns : List (Str × Option τ)

/-- Address table supplied by the smart-contract collaborator
(`getContractAddresses()`, source line 129); `none` models an absent
property. -/
abbrev AddrMap := Str → Option Str

/-- Embedding of the alias seeding at source lines 130-131:
`addresses.MDAI = addresses.MCD_DAI; addresses.MWETH = addresses.ETH`.
Lookups of `MDAI` and `MWETH` resolve through the aliases (overwriting
any pre-existing entry of those names); all other names are unchanged. -/
def aliasAddresses (addresses : AddrMap) : AddrMap := fun n =>
  if n = "MDAI".data then addresses "MCD_DAI".data
  else if n = "MWETH".data then addresses "ETH".data
  else addresses n

/-- Embedding of `callArgsOverrides ? callArgsOverrides.join('.') :
callArgs.map(a => a[0]).join('.')` (source lines 163-165). -/
def callArgsIdentifiers (e : LogicalSchemaEntry τ) : Str :=
  match e.callArgsOverrides with
  | some o => List.intercalate ['.'] o
  | none => List.intercalate ['.'] (e.callArgs.map (fun a => a.1))

/-- Embedding of the Call Key template
`` `${contractName}.${callFnName}.${callArgsIdentifiers}` `` (source line
167); the JS array `callFnName` stringifies by joining its tokens with
`','`. -/
def callKeyStructure (e : LogicalSchemaEntry τ) (sig : CallSignature) : Str :=
  e.contractName ++ '.' :: List.intercalate [','] sig.callFnName ++
    '.' :: callArgsIdentifiers e

/-- Embedding of `callArgs.map(([arg, cb]) => cb === undefined ? arg :
cb(arg))` (source lines 169-172). -/
def processedCallArgs (e : LogicalSchemaEntry τ) : List Str :=
  e.callArgs.map (fun a =>
    match a.2 with
    | none => a.1
    | some cb => cb a.1)

/-- Embedding of `returnKeys.map(([k, cb]) => [`${callKeyStructure}.${k}`,
cb].filter(x => x))` (source lines 174-176): each return key is fully
qualified by the Call Key; the `filter(x => x)` drops only an absent
transform (the qualified key, containing `'.'`, is never falsy), which the
`Option` already represents. -/
def processedReturnKeys (e : LogicalSchemaEntry τ) (sig : CallSignature) :
    List (Str × Option τ) :=
  e.returnKeys.map (fun rk => (callKeyStructure e sig ++ '.' :: rk.1, rk.2))

/-- Embedding of the `observableKeys.forEach((item, idx) => ...)` loop
(source lines 178-192): for each observable-key path, build the filtered
view of the root observable keyed by `processedReturnKeys[idx][0]` and
merge it into the store at that path.  Accessing `processedReturnKeys[idx]`
past the end raises a JS `TypeError`, modelled as `undefinedReturnKey`;
merges performed before the failing index persist in the returned store. -/
def registerViews (prks : List (Str × Option τ)) :
    List (List Str) → Nat → RegTree (LeafStream α) →
    Except MCError Unit × RegTree (LeafStream α)
  | [], _, store => (.ok (), store)
  | item :: restItems, idx, store =>
    match prks[idx]? with
    | none => (.error .undefinedReturnKey, store)
    | some p =>
      registerViews prks restItems (idx + 1)
        (insertPath item store (.filtered p.1))

/-- Embedding of the body of the `schemas.reduce` step in
`registerLogicalSchema` (source lines 135-202) for one schema entry:
parse the contract call, check both arities, register the filtered views,
and produce the entry's call descriptor.  On error the store reflects
the registry mutations already performed (none for parse or arity
failures, which precede all merges). -/
def processEntry (addresses : AddrMap) (e : LogicalSchemaEntry τ)
    (store : RegTree (LeafStream α)) :
    Except MCError (CallDescriptor τ) × RegTree (LeafStream α) :=
  match destructureContractCall e.contractCall with
  | .error er => (.error er, store)
  | .ok sig =>
    if sig.callTypes.length ≠ e.callArgs.length then (.error .arityCallArgs, store)
    else if sig.returnTypes.length ≠ e.returnKeys.length then
      (.error .arityReturnKeys, store)
    else
      match registerViews (processedReturnKeys e sig) e.observableKeys 0 store with
      | (.error er, store') => (.error er, store')
      | (.ok _, store') =>
        (.ok ⟨addresses e.contractName,
              e.contractCall :: processedCallArgs e,
              processedReturnKeys e sig⟩,
         store')

/-- Embedding of the full `schemas.reduce(..., [])` fold (source lines
135-204): process the entries in order, accumulating their call
descriptors.  An exception aborts the fold; the store keeps the registry
mutations of the entries already processed, and no descriptor list is
produced. -/
def runEntries (addresses : AddrMap) :
    List (LogicalSchemaEntry τ) → RegTree (LeafStream α) →
    Except MCError (List (CallDescriptor τ)) × RegTree (LeafStream α)
  | [], store => (.ok [], store)
  | e :: rest, store =>
    match processEntry addresses e store with
    | (.error er, store') => (.error er, store')
    | (.ok d, store') =>
      match runEntries addresses rest store' with
      | (.error er, store'') => (.error er, store'')
      | (.ok ds, store'') => (.ok (d :: ds), store'')

/-- State of the service relevant to schema registration: the batch
executor's call list (held by the watcher and extended through
`this._watcher.tap`, source line 133) and the Observable Registry
`this.observableStore`. -/
structure MCState (τ α : Type) where
  calls : List (CallDescriptor τ)
  observableStore : RegTree (LeafStream α)

/-- Embedding of `registerLogicalSchema(schemas)` (source lines 128-207).
The watcher hook `calls => [...calls, ...schemas.reduce(...)]` appends the
new descriptors to the existing call list; when the reduce throws, the
hook throws before producing a list, so the watcher's call list is left
unchanged while the registry keeps the mutations already performed, and
the error propagates to the caller (spec §7: validation errors are raised
synchronously).  On success the method returns the new registry. -/
def registerLogicalSchema (addresses : AddrMap)
    (schemas : List (LogicalSchemaEntry τ)) (st : MCState τ α) :
    Except MCError (RegTree (LeafStream α)) × MCState τ α :=
  match runEntries (aliasAddresses addresses) schemas st.observableStore with
  | (.ok ds, store') =>
    (.ok store', { st with calls := st.calls ++ ds, observableStore := store' })
  | (.error er, store') => (.error er, { st with observableStore := store' })

/-- Embedding of `getObservable(pathString)` (source lines 103-105):
lodash `get` splits the dotted path string on `'.'` and walks the store. -/
def getObservable (store : RegTree σ) (pathString : Str) : Option (RegTree σ) :=
  lookupReg (splitOnChar '.' pathString) store

/-- One derived schema entry (source line 210): observable-key path,
dependency paths, and the combining function `fn` from the resolved
dependency streams to a new stream. -/
structure DerivedSchemaEntry (α : Type) where
  observableKeys : List Str
  dependencies : List (List Str)
  fn : List (RegTree (LeafStream α)) → LeafStream α

/-- Embedding of the per-entry body of `registerDerivedSchema` (source
lines 210-228): resolve each dependency path (joined on `'.'`) against
the current store; if any is absent (`!!x === false` — stored values are
JS objects, hence truthy exactly when present), leave the store unchanged;
otherwise merge `fn(dependentObservables)` at the entry's
`observableKeys` path. -/
def derivedStep (store : RegTree (LeafStream α)) (e : DerivedSchemaEntry α) :
    RegTree (LeafStream α) :=
  let deps := e.dependencies.map (fun d =>
    getObservable store (List.intercalate ['.'] d))
  if deps.all (fun o => o.isSome) then
    insertPath e.observableKeys store (e.fn (deps.filterMap id))
  else store

/-- Embedding of `registerDerivedSchema(schemas)` (source lines 209-229):
fold the per-entry step over the schema list; the call list is not
touched and nothing is returned. -/
def registerDerivedSchema (schemas : List (DerivedSchemaEntry α))
    (st : MCState τ α) : MCState τ α :=
  { st with observableStore := schemas.foldl derivedStep st.observableStore }

/-- Address table fixture for concrete scenarios: contract `X` resolves,
everything else is absent. -/
def exAddrs : AddrMap := fun n =>
  if n = "X".data then some "0xX".data else none

/-- The logical schema entry of the spec's concrete scenario (§8):
`{contractName: "X", contractCall: "bal(addr)(uint)", callArgs:
[["0xabc"]], returnKeys: [["balance"]], observableKeys:
[["x","balance"]]}`. -/
def exEntry : LogicalSchemaEntry Nat :=
  ⟨"X".data, "bal(addr)(uint)".data, [("0xabc".data, none)], none,
   [("balance".data, none)], [["x".data, "balance".data]]⟩

/-- A schema entry with an argument-arity mismatch: `foo(addr)(uint)`
declares one argument type but `callArgs` is empty. -/
def exBadEntry : LogicalSchemaEntry Nat :=
  ⟨"Y".data, "foo(addr)(uint)".data, [], none, [("k".data, none)],
   [["y".data]]⟩

/-- Fresh service registration state: empty call list, empty registry
(`this.observableStore = {}`, source line 18). -/
def st0 : MCState Nat Nat := ⟨[], .node []⟩

/-- Lifecycle errors: `startObservable` throws `'watcher is not defined'`
(source line 92) when `createWatcher` has not run. -/
inductive SvcError where
  | watcherNotDefined
deriving DecidableEq, Repr

/-- Lifecycle state of the service.  `watcherDefined` records whether
`createWatcher` has run (`this._watcher !== undefined`);
`watcherSubscriptionCount` counts the subscriptions attached to the
watcher that feed `this._rootObservable` (source lines 96-98);
`rootObservableId` is the identity of the `ReplaySubject` created once in
the constructor (source line 15); `rootSubscription` is the field
`this._rootSubscription` initialised to `null` (line 16) and checked by
the guard at line 94; `rootSubcription` is the differently spelled field
`this._rootSubcription` actually assigned at line 96. -/
structure SvcState where
  watcherDefined : Bool
  watcherSubscriptionCount : Nat
  rootObservableId : Nat
  rootSubscription : Option Nat
  rootSubcription : Option Nat
deriving DecidableEq, Repr

/-- Embedding of `startObservable()` (source lines 91-101): throw when no
watcher exists; when the guard field `_rootSubscription` is `null`,
subscribe to the watcher (pushing updates into the root observable) and
store the handle in `_rootSubcription`; return `this._rootObservable`. -/
def startObservable (s : SvcState) : Except SvcError (Nat × SvcState) :=
  if s.watcherDefined = false then .error .watcherNotDefined
  else if s.rootSubscription = none then
    .ok (s.rootObservableId,
      { s with
        watcherSubscriptionCount := s.watcherSubscriptionCount + 1,
        rootSubcription := some s.watcherSubscriptionCount })
  else .ok (s.rootObservableId, s)

/-- Iterated calls of `startObservable`, propagating a thrown error. -/
def startObservableIter : Nat → SvcState → Except SvcError SvcState
  | 0, s => .ok s
  | n + 1, s =>
    match startObservable s with
    | .error e => .error e
    | .ok (_, s') => startObservableIter n s'

/-- Deliveries a single watcher update batch `u` causes on the root
observable: each active watcher subscription runs the callback
`updates => this._rootObservable.next(updates)` (source lines 96-98)
once, so the batch arrives once per subscription. -/
def pollDeliveries (s : SvcState) (u : β) : List β :=
  List.replicate s.watcherSubscriptionCount u

/-- Embedding of `disconnect()` (source lines 231-233): the body is only
the comment `// TODO`, so the method does nothing. -/
def disconnect (s : SvcState) : SvcState := s

/-- Service state right after `createWatcher()`: watcher defined, no
subscription attached, both subscription fields `null`. -/
def svc0 : SvcState := ⟨true, 0, 0, none, none⟩

/-- Reference-level registry tree for the snapshot-mutation analysis.  A
snapshot's plain-object spine is rebuilt by every `merge({}, ...)` call,
but its leaves are references (by heap index) to shared stream objects
(the rxjs Observables), which lodash copies by reference, never clones. -/
inductive HTree where
  | leafRef (ref : Nat)
  | node (entries : List (Str × HTree))

instance htreeInhabited : Inhabited HTree := ⟨.node []⟩

/-- One stream object (a piped Observable) on the heap: its filter key
(the payload, irrelevant to lookups) and the property table lodash may
graft onto the object when a deep merge descends through it.  A freshly
piped Observable has an empty property table. -/
structure ObsObj where
  streamKey : Str
  props : List (Str × HTree)

/-- Heap of stream objects, in allocation order; an `HTree.leafRef`
indexes into it. -/
abbrev ObsHeap := List ObsObj

/-- Reference-level counterpart of `chainPath`: the nested single-key
chain built by `reduceRight` whose innermost value is a reference to the
freshly allocated stream object. -/
def chainH (path : List Str) (r : Nat) : HTree :=
  path.foldr (fun k t => .node [(k, t)]) (.leafRef r)

/-- Reference-level embedding of lodash `get(snapshot, path)` (source
line 104): walking a path segment into a stream object reads the
properties grafted onto that object (JS property access does not care
that the object is an Observable). -/
def lookupH : ObsHeap → List Str → HTree → Option HTree
  | _, [], t => some t
  | heap, k :: rest, .node kvs =>
    match kvs.find? (fun kv => decide (kv.1 = k)) with
    | some kv => lookupH heap rest kv.2
    | none => none
  | heap, k :: rest, .leafRef i =>
    match heap[i]? with
    | some obj =>
      match obj.props.find? (fun kv => decide (kv.1 = k)) with
      | some kv => lookupH heap rest kv.2
      | none => none
    | none => none

/-- Predicate `graftFreeB p t`: walking path `p` through snapshot `t`
never meets a stream leaf while path segments remain, i.e. the merge of a
chain for `p` stays within plain-object nodes and never descends into a
shared stream object. -/
def graftFreeB : List Str → HTree → Bool
  | [], _ => true
  | _ :: _, .leafRef _ => false
  | k :: rest, .node kvs =>
    match kvs.find? (fun kv => decide (kv.1 = k)) with
    | some kv => graftFreeB rest kv.2
    | none => true

/-- Reference-level embedding of one lodash deep-merge of the chain for
`path` (innermost value: the stream object `newRef`) into a snapshot,
following `baseMergeDeep`: a matching key recurses; a missing key gets
the freshly built chain; a stream source replaces the destination value
wholesale; and when the walk reaches a stream leaf with path segments
remaining, lodash keeps the shared stream object (`newValue = objValue`)
and merges the remaining chain into it — grafting properties onto the
object on the heap, visible through every snapshot referencing it. -/
def mergeH (newRef : Nat) : List Str → ObsHeap → HTree → ObsHeap × HTree
  | [], heap, _ => (heap, .leafRef newRef)
  | k :: rest, heap, .node kvs =>
    match kvs.find? (fun kv => decide (kv.1 = k)) with
    | some kv =>
      ((mergeH newRef rest heap kv.2).1,
       .node (kvs.map (fun kv' =>
         if kv'.1 = k then (kv'.1, (mergeH newRef rest heap kv.2).2) else kv')))
    | none => (heap, .node (kvs ++ [(k, chainH rest newRef)]))
  | k :: rest, heap, .leafRef i =>
    match heap[i]? with
    | some obj =>
      match obj.props.find? (fun kv => decide (kv.1 = k)) with
      | some kv =>
        ((mergeH newRef rest heap kv.2).1.set i
           ⟨obj.streamKey,
            obj.props.map (fun kv' =>
              if kv'.1 = k then (kv'.1, (mergeH newRef rest heap kv.2).2)
              else kv')⟩,
         .leafRef i)
      | none =>
        (heap.set i ⟨obj.streamKey, obj.props ++ [(k, chainH rest newRef)]⟩,
         .leafRef i)
    | none => (heap, .leafRef i)

/-- Reference-level embedding of one registry update
`this.observableStore = merge({}, this.observableStore, entry)` (source
lines 179-191, likewise 218-227): pipe a fresh stream object (allocated
at the end of the heap, with no grafted properties) and deep-merge the
single-key chain for `path` into the current snapshot, yielding the new
heap and the new snapshot the registry field is reassigned to. -/
def registerViewH (heap : ObsHeap) (snap : HTree) (path : List Str)
    (streamKey : Str) : ObsHeap × HTree :=
  mergeH heap.length path (heap ++ [⟨streamKey, []⟩]) snap

/-- Registry fixture holding one filtered stream at path `a`. -/
def exStoreA : RegTree (LeafStream Nat) :=
  insertPath ["a".data] (.node []) (.filtered "k".data)

/-- Service state fixture built on `exStoreA`. -/
def stA : MCState Nat Nat := ⟨[], exStoreA⟩

/-- A derived schema entry whose single dependency path `zz` is absent
from `exStoreA`. -/
def exDerivedMissing : DerivedSchemaEntry Nat :=
  ⟨["q".data], [["zz".data]], fun _ => .derivedStream 7⟩

/-- A derived schema entry whose single dependency path `a` is present in
`exStoreA`. -/
def exDerivedOk : DerivedSchemaEntry Nat :=
  ⟨["q".data], [["a".data]], fun _ => .derivedStream 7⟩

/-- A signature token in the sense of spec §4.1: a nonempty string free of
the three delimiter characters of the call-signature grammar. -/
abbrev PlainToken (s : Str) : Prop :=
  s ≠ [] ∧ '(' ∉ s ∧ ')' ∉ s ∧ ',' ∉ s

theorem splitOnChar_nil (c : Char) : splitOnChar c [] = [[]] := rfl

theorem splitOnChar_cons_def (c x : Char) (s : Str) :
    splitOnChar c (x :: s) =
      (match splitOnChar c s with
        | [] => [[x]]
        | g :: rest => if x = c then [] :: g :: rest else (x :: g) :: rest) := rfl

theorem splitOnChar_ne_nil (c : Char) (s : Str) : splitOnChar c s ≠ [] := by
  induction s with
  | nil => simp [splitOnChar_nil]
  | cons x xs ih =>
    rw [splitOnChar_cons_def]
    rcases h : splitOnChar c xs with _ | ⟨g, rest⟩
    · simp
    · by_cases hx : x = c <;> simp [hx]

theorem splitOnChar_cons (c x : Char) (s : Str) :
    splitOnChar c (x :: s) =
      if x = c then [] :: splitOnChar c s
      else (splitOnChar c s).modifyHead (fun g => x :: g) := by
  rw [splitOnChar_cons_def]
  rcases h : (splitOnChar c s) with _ | ⟨g, rest⟩
  · exact absurd h (splitOnChar_ne_nil c s)
  · by_cases hx : x = c <;> simp [hx]

theorem splitOnChar_append_not_mem (c : Char) (xs s : Str) (h : c ∉ xs) :
    splitOnChar c (xs ++ s) = (splitOnChar c s).modifyHead (fun g => xs ++ g) := by
  induction xs with
  | nil =>
    rcases hs : splitOnChar c s with _ | ⟨g, rest⟩
    · exact absurd hs (splitOnChar_ne_nil c s)
    · simp [hs]
  | cons x xs ih =>
    have hx : x ≠ c := fun hxc => h (hxc ▸ List.mem_cons_self x xs)
    have hxs : c ∉ xs := fun hm => h (List.mem_cons_of_mem x hm)
    rw [List.cons_append, splitOnChar_cons, if_neg hx, ih hxs]
    rcases hs : splitOnChar c s with _ | ⟨g, rest⟩
    · exact absurd hs (splitOnChar_ne_nil c s)
    · simp [hs]

theorem splitOnChar_of_not_mem (c : Char) (xs : Str) (h : c ∉ xs) :
    splitOnChar c xs = [xs] := by
  have h2 := splitOnChar_append_not_mem c xs [] h
  rw [List.append_nil, splitOnChar_nil, List.modifyHead_cons, List.append_nil] at h2
  exact h2

theorem splitOnChar_sep (c : Char) (xs s : Str) (h : c ∉ xs) :
    splitOnChar c (xs ++ c :: s) = xs :: splitOnChar c s := by
  rw [splitOnChar_append_not_mem c xs (c :: s) h, splitOnChar_cons, if_pos rfl,
    List.modifyHead_cons, List.append_nil]

theorem stripTrailingParen_concat (xs : Str) :
    stripTrailingParen (xs ++ [')']) = xs := by
  simp [stripTrailingParen, List.getLast?_concat]

theorem stripTrailingParen_of_not_mem (xs : Str) (h : ')' ∉ xs) :
    stripTrailingParen xs = xs := by
  rcases List.eq_nil_or_concat xs with rfl | ⟨L, b, rfl⟩
  · rfl
  · have hb : b ≠ ')' := by
      intro hb
      exact h (by simp [List.concat_eq_append, hb])
    simp only [List.concat_eq_append, stripTrailingParen, List.getLast?_concat]
    split
    · next heq => exact absurd (Option.some.inj heq) hb
    · rfl

theorem filter_tokens_single (a : Str) (ha : a ≠ []) :
    ([a].filter (fun x => x ≠ [])) = [a] := by
  simp [List.filter, ha]

theorem chainPath_cons (k : Str) (rest : List Str) (s : σ) :
    chainPath (k :: rest) s = .node [(k, chainPath rest s)] := rfl

theorem lookupReg_cons_node (k : Str) (rest : List Str)
    (kvs : List (Str × RegTree σ)) :
    lookupReg (k :: rest) (.node kvs) =
      (match kvs.find? (fun kv => decide (kv.1 = k)) with
        | some kv => lookupReg rest kv.2
        | none => none) := rfl

theorem lookupReg_cons_leaf (k : Str) (rest : List Str) (s' : σ) :
    lookupReg (k :: rest) (.leaf s') = none := rfl

theorem lookupReg_chainPath_self (p : List Str) (s : σ) :
    lookupReg p (chainPath p s) = some (.leaf s) := by
  induction p with
  | nil => rfl
  | cons k rest ih =>
    rw [chainPath_cons, lookupReg_cons_node]
    simp [ih]

theorem lookupReg_chainPath_off (q : List Str) (s : σ) :
    ∀ p : List Str, ¬ p <+: q → ¬ q <+: p →
      lookupReg p (chainPath q s) = none := by
  induction q with
  | nil =>
    intro p _ h2
    exact absurd List.nil_prefix h2
  | cons k qr ih =>
    intro p h1 h2
    rcases p with _ | ⟨j, pr⟩
    · exact absurd List.nil_prefix h1
    · rw [chainPath_cons, lookupReg_cons_node]
      by_cases hjk : j = k
      · subst hjk
        have h1' : ¬ pr <+: qr := fun hp => h1 (List.cons_prefix_cons.mpr ⟨rfl, hp⟩)
        have h2' : ¬ qr <+: pr := fun hp => h2 (List.cons_prefix_cons.mpr ⟨rfl, hp⟩)
        simpa using ih pr h1' h2'
      · have hkj : ¬ (k = j) := fun h => hjk h.symm
        simp [hkj]

theorem find?_map_update (kvs : List (Str × RegTree σ)) (k j : Str)
    (rest : List Str) (s : σ) (hjk : j ≠ k) :
    (kvs.map (fun kv =>
        if kv.1 = k then (kv.1, insertPath rest kv.2 s) else kv)).find?
      (fun kv => decide (kv.1 = j)) =
    kvs.find? (fun kv => decide (kv.1 = j)) := by
  induction kvs with
  | nil => rfl
  | cons kv kvs ih =>
    rw [List.map_cons]
    by_cases hk : kv.1 = k
    · have hj : ¬ (kv.1 = j) := fun h => hjk (h ▸ hk)
      rw [if_pos hk,
        List.find?_cons_of_neg _ (by simpa using hj),
        List.find?_cons_of_neg _ (by simpa using hj), ih]
    · by_cases hj : kv.1 = j
      · rw [if_neg hk,
          List.find?_cons_of_pos _ (by simpa using hj),
          List.find?_cons_of_pos _ (by simpa using hj)]
      · rw [if_neg hk,
          List.find?_cons_of_neg _ (by simpa using hj),
          List.find?_cons_of_neg _ (by simpa using hj), ih]

theorem find?_map_update_self (kvs : List (Str × RegTree σ)) (k : Str)
    (rest : List Str) (s : σ)
    (h : kvs.any (fun kv => decide (kv.1 = k)) = true) :
    ∃ v, kvs.find? (fun kv => decide (kv.1 = k)) = some (k, v) ∧
      (kvs.map (fun kv =>
          if kv.1 = k then (kv.1, insertPath rest kv.2 s) else kv)).find?
        (fun kv => decide (kv.1 = k)) = some (k, insertPath rest v s) := by
  induction kvs with
  | nil => simp at h
  | cons kv kvs ih =>
    rcases kv with ⟨a, b⟩
    rw [List.map_cons]
    by_cases hk : a = k
    · subst hk
      refine ⟨b, ?_, ?_⟩
      · rw [List.find?_cons_of_pos _ (by simp)]
      · simp
    · have h' : kvs.any (fun kv => decide (kv.1 = k)) = true := by
        simpa [List.any_cons, hk] using h
      obtain ⟨v, hv1, hv2⟩ := ih h'
      refine ⟨v, ?_, ?_⟩
      · rw [List.find?_cons_of_neg _ (by simpa using hk), hv1]
      · rw [if_neg hk, List.find?_cons_of_neg _ (by simpa using hk), hv2]

theorem insertPath_cons_node (k : Str) (rest : List Str)
    (kvs : List (Str × RegTree σ)) (s : σ) :
    insertPath (k :: rest) (.node kvs) s =
      if kvs.any (fun kv => decide (kv.1 = k)) then
        .node (kvs.map (fun kv =>
          if kv.1 = k then (kv.1, insertPath rest kv.2 s) else kv))
      else .node (kvs ++ [(k, chainPath rest s)]) := rfl

theorem insertPath_cons_leaf (k : Str) (rest : List Str) (s' s : σ) :
    insertPath (k :: rest) (.leaf s') s = .node [(k, chainPath rest s)] := rfl

theorem any_eq_false_find? (kvs : List (Str × RegTree σ)) (k : Str)
    (hany : ¬ kvs.any (fun kv => decide (kv.1 = k)) = true) :
    kvs.find? (fun kv => decide (kv.1 = k)) = none := by
  rw [List.find?_eq_none]
  intro x hx hpx
  exact hany (List.any_eq_true.mpr ⟨x, hx, hpx⟩)

theorem lookupReg_insertPath_self (p : List Str) (t : RegTree σ) (s : σ) :
    lookupReg p (insertPath p t s) = some (.leaf s) := by
  induction p generalizing t with
  | nil => rfl
  | cons k rest ih =>
    rcases t with s' | kvs
    · rw [insertPath_cons_leaf, lookupReg_cons_node]
      simp [lookupReg_chainPath_self]
    · rw [insertPath_cons_node]
      by_cases hany : kvs.any (fun kv => decide (kv.1 = k)) = true
      · rw [if_pos hany]
        obtain ⟨v, _, hv2⟩ := find?_map_update_self kvs k rest s hany
        rw [lookupReg_cons_node, hv2]
        exact ih v
      · rw [if_neg hany, lookupReg_cons_node, List.find?_append,
          any_eq_false_find? kvs k hany]
        simp [lookupReg_chainPath_self]

theorem lookupReg_insertPath_frame (q : List Str) (s : σ) :
    ∀ (p : List Str) (t : RegTree σ), ¬ p <+: q → ¬ q <+: p →
      lookupReg p (insertPath q t s) = lookupReg p t := by
  induction q with
  | nil =>
    intro p t _ h2
    exact absurd List.nil_prefix h2
  | cons k qr ih =>
    intro p t h1 h2
    rcases p with _ | ⟨j, pr⟩
    · exact absurd List.nil_prefix h1
    rcases t with s' | kvs
    · rw [insertPath_cons_leaf, lookupReg_cons_node]
      by_cases hjk : j = k
      · subst hjk
        have h1' : ¬ pr <+: qr := fun hp => h1 (List.cons_prefix_cons.mpr ⟨rfl, hp⟩)
        have h2' : ¬ qr <+: pr := fun hp => h2 (List.cons_prefix_cons.mpr ⟨rfl, hp⟩)
        simpa using lookupReg_chainPath_off qr s pr h1' h2'
      · have hkj : ¬ (k = j) := fun h => hjk h.symm
        simp [hkj, lookupReg_cons_leaf]
    · rw [insertPath_cons_node]
      by_cases hany : kvs.any (fun kv => decide (kv.1 = k)) = true
      · rw [if_pos hany]
        by_cases hjk : j = k
        · subst hjk
          have h1' : ¬ pr <+: qr := fun hp => h1 (List.cons_prefix_cons.mpr ⟨rfl, hp⟩)
          have h2' : ¬ qr <+: pr := fun hp => h2 (List.cons_prefix_cons.mpr ⟨rfl, hp⟩)
          obtain ⟨v, hv1, hv2⟩ := find?_map_update_self kvs j qr s hany
          rw [lookupReg_cons_node, hv2, lookupReg_cons_node, hv1]
          exact ih pr v h1' h2'
        · rw [lookupReg_cons_node, find?_map_update kvs k j qr s hjk,
            lookupReg_cons_node]
      · rw [if_neg hany]
        by_cases hjk : j = k
        · subst hjk
          have h1' : ¬ pr <+: qr := fun hp => h1 (List.cons_prefix_cons.mpr ⟨rfl, hp⟩)
          have h2' : ¬ qr <+: pr := fun hp => h2 (List.cons_prefix_cons.mpr ⟨rfl, hp⟩)
          rw [lookupReg_cons_node, List.find?_append,
            any_eq_false_find? kvs j hany, lookupReg_cons_node,
            any_eq_false_find? kvs j hany]
          simpa using lookupReg_chainPath_off qr s pr h1' h2'
        · have hkj : ¬ (k = j) := fun h => hjk h.symm
          rw [lookupReg_cons_node, List.find?_append, lookupReg_cons_node]
          simp [hkj]

theorem registerViews_cons (prks : List (Str × Option τ)) (item : List Str)
    (restItems : List (List Str)) (idx : Nat)
    (store : RegTree (LeafStream α)) :
    registerViews prks (item :: restItems) idx store =
      (match prks[idx]? with
        | none => (.error .undefinedReturnKey, store)
        | some p =>
          registerViews prks restItems (idx + 1)
            (insertPath item store (.filtered p.1))) := rfl

theorem registerViews_frame (prks : List (Str × Option τ))
    (items : List (List Str)) (p : List Str)
    (hdisj : ∀ q ∈ items, ¬ p <+: q ∧ ¬ q <+: p) :
    ∀ (idx : Nat) (store : RegTree (LeafStream α)),
      lookupReg p (registerViews prks items idx store).2 = lookupReg p store := by
  induction items with
  | nil => intro idx store; rfl
  | cons q rest ih =>
    intro idx store
    rw [registerViews_cons]
    rcases hp : prks[idx]? with _ | pr
    · simp
    · simp only
      obtain ⟨hpq, hqp⟩ := hdisj q (List.mem_cons_self q rest)
      rw [ih (fun x hx => hdisj x (List.mem_cons_of_mem q hx)) (idx + 1),
        lookupReg_insertPath_frame q _ p store hpq hqp]

theorem registerViews_ok (prks : List (Str × Option τ)) :
    ∀ (items : List (List Str)) (idx : Nat)
      (store : RegTree (LeafStream α)),
      idx + items.length ≤ prks.length →
      (registerViews prks items idx store).1 = .ok () := by
  intro items
  induction items with
  | nil => intro idx store _; rfl
  | cons q rest ih =>
    intro idx store hlen
    have hidx : idx < prks.length := by
      simp only [List.length_cons] at hlen
      omega
    rw [registerViews_cons, List.getElem?_eq_getElem hidx]
    exact ih (idx + 1) _ (by simp only [List.length_cons] at hlen; omega)

theorem registerViews_lookup (prks : List (Str × Option τ)) :
    ∀ (pre : List (List Str)) (p : List Str) (post : List (List Str))
      (idx : Nat) (store : RegTree (LeafStream α))
      (rk : Str × Option τ),
      prks[idx + pre.length]? = some rk →
      idx + (pre ++ p :: post).length ≤ prks.length →
      (∀ q ∈ post, ¬ p <+: q ∧ ¬ q <+: p) →
      lookupReg p (registerViews prks (pre ++ p :: post) idx store).2 =
        some (.leaf (.filtered rk.1)) := by
  intro pre
  induction pre with
  | nil =>
    intro p post idx store rk hrk hlen hdisj
    rw [List.nil_append, registerViews_cons]
    simp only [List.length_nil, Nat.add_zero] at hrk
    rw [hrk]
    simp only
    rw [registerViews_frame prks post p hdisj (idx + 1),
      lookupReg_insertPath_self]
  | cons q pre' ih =>
    intro p post idx store rk hrk hlen hdisj
    have hidx : idx < prks.length := by
      simp only [List.cons_append, List.length_cons] at hlen
      omega
    rw [List.cons_append, registerViews_cons,
      List.getElem?_eq_getElem hidx]
    simp only
    refine ih p post (idx + 1) _ rk ?_ ?_ hdisj
    · rw [← hrk]
      congr 1
      simp [List.length_cons]
      omega
    · simp only [List.cons_append, List.length_cons] at hlen ⊢
      simp only [List.length_append, List.length_cons] at hlen ⊢
      omega

theorem processEntry_ok (addresses : AddrMap) (e : LogicalSchemaEntry τ)
    (store : RegTree (LeafStream α)) (sig : CallSignature)
    (hsig : destructureContractCall e.contractCall = .ok sig)
    (h1 : sig.callTypes.length = e.callArgs.length)
    (h2 : sig.returnTypes.length = e.returnKeys.length)
    (h3 : e.observableKeys.length ≤ e.returnKeys.length) :
    processEntry addresses e store =
      (.ok ⟨addresses e.contractName,
            e.contractCall :: processedCallArgs e,
            processedReturnKeys e sig⟩,
       (registerViews (processedReturnKeys e sig) e.observableKeys 0 store).2) := by
  have hlen : (processedReturnKeys e sig).length = e.returnKeys.length := by
    simp [processedReturnKeys]
  have hok : (registerViews (processedReturnKeys e sig)
      e.observableKeys 0 store).1 = .ok () := by
    apply registerViews_ok
    omega
  rcases hrv : registerViews (processedReturnKeys e sig)
      e.observableKeys 0 store with ⟨fst, snd⟩
  rw [hrv] at hok
  simp only at hok
  subst hok
  simp only [processEntry, hsig, h1, h2]
  rw [if_neg (by simp [h1]), if_neg (by simp [h2]), hrv]

theorem processEntry_arity_args (addresses : AddrMap)
    (e : LogicalSchemaEntry τ) (store : RegTree (LeafStream α))
    (sig : CallSignature)
    (hsig : destructureContractCall e.contractCall = .ok sig)
    (h1 : sig.callTypes.length ≠ e.callArgs.length) :
    processEntry addresses e store = (.error .arityCallArgs, store) := by
  simp only [processEntry, hsig]
  rw [if_pos h1]

theorem processEntry_arity_returns (addresses : AddrMap)
    (e : LogicalSchemaEntry τ) (store : RegTree (LeafStream α))
    (sig : CallSignature)
    (hsig : destructureContractCall e.contractCall = .ok sig)
    (h1 : sig.callTypes.length = e.callArgs.length)
    (h2 : sig.returnTypes.length ≠ e.returnKeys.length) :
    processEntry addresses e store = (.error .arityReturnKeys, store) := by
  simp only [processEntry, hsig]
  rw [if_neg (by simp [h1]), if_pos h2]

theorem runEntries_singleton (addresses : AddrMap) (e : LogicalSchemaEntry τ)
    (store : RegTree (LeafStream α)) :
    runEntries addresses [e] store =
      (match processEntry addresses e store with
        | (.error er, store') => (.error er, store')
        | (.ok d, store') => (.ok [d], store')) := by
  rcases h : processEntry addresses e store with ⟨fst, snd⟩
  cases fst with
  | error er => simp [runEntries, h]
  | ok d => simp [runEntries, h]

theorem registerLogicalSchema_single_ok (addresses : AddrMap)
    (e : LogicalSchemaEntry τ) (st : MCState τ α) (sig : CallSignature)
    (hsig : destructureContractCall e.contractCall = .ok sig)
    (h1 : sig.callTypes.length = e.callArgs.length)
    (h2 : sig.returnTypes.length = e.returnKeys.length)
    (h3 : e.observableKeys.length ≤ e.returnKeys.length) :
    registerLogicalSchema addresses [e] st =
      (.ok ((registerViews (processedReturnKeys e sig)
              e.observableKeys 0 st.observableStore).2),
       ⟨st.calls ++
          [⟨aliasAddresses addresses e.contractName,
            e.contractCall :: processedCallArgs e,
            processedReturnKeys e sig⟩],
        (registerViews (processedReturnKeys e sig)
          e.observableKeys 0 st.observableStore).2⟩) := by
  have hpe := processEntry_ok (aliasAddresses addresses) e
    st.observableStore sig hsig h1 h2 h3
  simp only [registerLogicalSchema, runEntries_singleton, hpe]

theorem registerLogicalSchema_error_calls (addresses : AddrMap)
    (schemas : List (LogicalSchemaEntry τ)) (st : MCState τ α)
    (er : MCError)
    (h : (registerLogicalSchema addresses schemas st).1 = .error er) :
    (registerLogicalSchema addresses schemas st).2.calls = st.calls := by
  rcases hre : runEntries (aliasAddresses addresses) schemas
      st.observableStore with ⟨fst, snd⟩
  cases fst with
  | error er' => simp [registerLogicalSchema, hre]
  | ok ds =>
    rw [registerLogicalSchema, hre] at h
    simp at h

theorem lookupH_cons_node (heap : ObsHeap) (k : Str) (rest : List Str)
    (kvs : List (Str × HTree)) :
    lookupH heap (k :: rest) (.node kvs) =
      (match kvs.find? (fun kv => decide (kv.1 = k)) with
        | some kv => lookupH heap rest kv.2
        | none => none) := rfl

theorem lookupH_cons_leafRef (heap : ObsHeap) (k : Str) (rest : List Str)
    (i : Nat) :
    lookupH heap (k :: rest) (.leafRef i) =
      (match heap[i]? with
        | some obj =>
          match obj.props.find? (fun kv => decide (kv.1 = k)) with
          | some kv => lookupH heap rest kv.2
          | none => none
        | none => none) := rfl

theorem lookupH_cons_leafRef_found (heap : ObsHeap) (k : Str)
    (rest : List Str) (i : Nat) (obj : ObsObj) (h : heap[i]? = some obj) :
    lookupH heap (k :: rest) (.leafRef i) =
      (match obj.props.find? (fun kv => decide (kv.1 = k)) with
        | some kv => lookupH heap rest kv.2
        | none => none) := by
  rw [lookupH_cons_leafRef, h]

theorem graftFreeB_cons_node (k : Str) (rest : List Str)
    (kvs : List (Str × HTree)) :
    graftFreeB (k :: rest) (.node kvs) =
      (match kvs.find? (fun kv => decide (kv.1 = k)) with
        | some kv => graftFreeB rest kv.2
        | none => true) := rfl

theorem mergeH_cons_node (newRef : Nat) (k : Str) (rest : List Str)
    (heap : ObsHeap) (kvs : List (Str × HTree)) :
    mergeH newRef (k :: rest) heap (.node kvs) =
      (match kvs.find? (fun kv => decide (kv.1 = k)) with
        | some kv =>
          ((mergeH newRef rest heap kv.2).1,
           .node (kvs.map (fun kv' =>
             if kv'.1 = k then (kv'.1, (mergeH newRef rest heap kv.2).2)
             else kv')))
        | none => (heap, .node (kvs ++ [(k, chainH rest newRef)]))) := rfl

theorem mergeH_graftFree_heap (newRef : Nat) :
    ∀ (p : List Str) (heap : ObsHeap) (t : HTree),
      graftFreeB p t = true → (mergeH newRef p heap t).1 = heap := by
  intro p
  induction p with
  | nil => intro heap t _; rfl
  | cons k rest ih =>
    intro heap t hg
    rcases t with i | kvs
    · simp [graftFreeB] at hg
    · rw [graftFreeB_cons_node] at hg
      rw [mergeH_cons_node]
      rcases hf : kvs.find? (fun kv => decide (kv.1 = k)) with _ | kv
      · rw [hf]
      · rw [hf] at hg ⊢
        exact ih heap kv.2 hg

theorem lookupH_extend (heap : ObsHeap) (key : Str) :
    ∀ (q : List Str) (t : HTree),
      lookupH (heap ++ [⟨key, []⟩]) q t = lookupH heap q t := by
  intro q
  induction q with
  | nil => intro t; rfl
  | cons k rest ih =>
    intro t
    rcases t with i | kvs
    · by_cases hi : i < heap.length
      · have hext : (heap ++ [(⟨key, []⟩ : ObsObj)])[i]? = heap[i]? :=
          List.getElem?_append_left hi
        rcases hobj : heap[i]? with _ | obj
        · rw [lookupH_cons_leafRef, lookupH_cons_leafRef, hext, hobj]
        · rw [lookupH_cons_leafRef_found _ _ _ _ obj (hext.trans hobj),
            lookupH_cons_leafRef_found _ _ _ _ obj hobj]
          rcases hf : obj.props.find? (fun kv => decide (kv.1 = k)) with _ | kv
          · rw [hf]
          · rw [hf]
            exact ih kv.2
      · rw [lookupH_cons_leafRef, lookupH_cons_leafRef]
        by_cases hlen : i = heap.length
        · subst hlen
          rw [List.getElem?_concat_length, List.getElem?_eq_none (Nat.le_refl _)]
          rfl
        · have h1 : (heap ++ [(⟨key, []⟩ : ObsObj)]).length ≤ i := by
            simp only [List.length_append, List.length_cons, List.length_nil]
            omega
          have h2 : heap.length ≤ i := by omega
          rw [List.getElem?_eq_none h1, List.getElem?_eq_none h2]
    · rw [lookupH_cons_node, lookupH_cons_node]
      rcases hf : kvs.find? (fun kv => decide (kv.1 = k)) with _ | kv
      · rw [hf]
      · rw [hf]
        exact ih kv.2

theorem startObservableIter_ok (n : Nat) :
    ∀ s : SvcState, s.watcherDefined = true → s.rootSubscription = none →
      ∃ s', startObservableIter n s = .ok s' ∧
        s'.watcherSubscriptionCount = s.watcherSubscriptionCount + n ∧
        s'.rootSubscription = none ∧ s'.watcherDefined = true ∧
        s'.rootObservableId = s.rootObservableId := by
  induction n with
  | zero =>
    intro s h1 h2
    exact ⟨s, rfl, rfl, h2, h1, rfl⟩
  | succ n ih =>
    intro s h1 h2
    have hstep : startObservable s = .ok (s.rootObservableId,
        { s with
          watcherSubscriptionCount := s.watcherSubscriptionCount + 1,
          rootSubcription := some s.watcherSubscriptionCount }) := by
      simp [startObservable, h1, h2]
    obtain ⟨s', hiter, hcount, hsub, hdef, hid⟩ :=
      ih ({ s with
            watcherSubscriptionCount := s.watcherSubscriptionCount + 1,
            rootSubcription := some s.watcherSubscriptionCount })
        h1 h2
    refine ⟨s', ?_, by simp at hcount; omega, hsub, hdef, hid⟩
    rw [startObservableIter, hstep]
    exact hiter

/-- C2: for every derived schema entry, `registerDerivedSchema` leaves the
whole service state unchanged (no error raised, since the function is
total) whenever some dependency path is absent from the current Observable
Registry, and otherwise merges the result of the combining function `fn`,
applied to the ordered resolved streams, into the registry at the entry's
`observableKeys` path. -/
theorem c2_derived_schema_skip_or_merge :
    ∀ (τ α : Type) (st : MCState τ α) (e : DerivedSchemaEntry α),
      ((∃ d ∈ e.dependencies,
          getObservable st.observableStore (List.intercalate ['.'] d) = none) →
        registerDerivedSchema [e] st = st) ∧
      (∀ vs : List (RegTree (LeafStream α)),
        e.dependencies.map (fun d =>
          getObservable st.observableStore (List.intercalate ['.'] d)) =
          vs.map some →
        (registerDerivedSchema [e] st).observableStore =
          insertPath e.observableKeys st.observableStore (e.fn vs)) := by
  intro τ α st e
  constructor
  · rintro ⟨d, hd, hnone⟩
    have hmem : (none : Option (RegTree (LeafStream α))) ∈
        e.dependencies.map (fun d =>
          getObservable st.observableStore (List.intercalate ['.'] d)) := by
      rw [← hnone]
      exact List.mem_map_of_mem _ hd
    have hall : ¬ (e.dependencies.map (fun d =>
        getObservable st.observableStore (List.intercalate ['.'] d))).all
          (fun o => o.isSome) = true := by
      intro hall
      have := List.all_eq_true.mp hall none hmem
      simp at this
    simp only [registerDerivedSchema, List.foldl_cons, List.foldl_nil,
      derivedStep]
    rw [if_neg hall]
  · intro vs hvs
    have hall : (e.dependencies.map (fun d =>
        getObservable st.observableStore (List.intercalate ['.'] d))).all
          (fun o => o.isSome) = true := by
      rw [hvs]
      simp [List.all_map]
    have hfm : (e.dependencies.map (fun d =>
        getObservable st.observableStore
          (List.intercalate ['.'] d))).filterMap id = vs := by
      rw [hvs, List.filterMap_map]
      simp [List.filterMap_some]
    simp only [registerDerivedSchema, List.foldl_cons, List.foldl_nil,
      derivedStep]
    rw [if_pos hall, hfm]

/-- C3 counterexample: the registration call
`registerLogicalSchema exAddrs [exEntry, exBadEntry] st0` fails with the
argument-arity error, as the claim states, and the earlier valid entry's
filtered view is already registered in the registry — but the watcher's
call list is left completely empty: the earlier entry's descriptor was
NOT submitted, contradicting the claim's assertion that entries earlier
in the same call may have their descriptors submitted. -/
theorem c3_arity_counterexample :
    (registerLogicalSchema exAddrs [exEntry, exBadEntry] st0).1 =
      .error .arityCallArgs ∧
    (registerLogicalSchema exAddrs [exEntry, exBadEntry] st0).2.calls = [] ∧
    lookupReg ["x".data, "balance".data]
      (registerLogicalSchema exAddrs
        [exEntry, exBadEntry] st0).2.observableStore =
      some (.leaf (.filtered "X.bal.0xabc.balance".data)) :=
  ⟨rfl, rfl, rfl⟩

/-- C3 (amended): a schema entry whose `callArgs` length differs from the
parsed `callTypes` length (or whose `returnKeys` length differs from the
parsed `returnTypes` length) makes its processing fail with the
corresponding arity error, performing no registry mutation and emitting
no descriptor for the failing entry; and whenever a registration call
fails, the watcher's call list is unchanged — descriptor submission is
transactional across the whole call (no entry's descriptor is submitted),
while registry registration remains per-entry. -/
theorem c3_arity_transactional_submission :
    (∀ (τ α : Type) (addresses : AddrMap) (e : LogicalSchemaEntry τ)
      (store : RegTree (LeafStream α)) (sig : CallSignature),
      destructureContractCall e.contractCall = .ok sig →
      sig.callTypes.length ≠ e.callArgs.length →
      processEntry addresses e store = (.error .arityCallArgs, store)) ∧
    (∀ (τ α : Type) (addresses : AddrMap) (e : LogicalSchemaEntry τ)
      (store : RegTree (LeafStream α)) (sig : CallSignature),
      destructureContractCall e.contractCall = .ok sig →
      sig.callTypes.length = e.callArgs.length →
      sig.returnTypes.length ≠ e.returnKeys.length →
      processEntry addresses e store = (.error .arityReturnKeys, store)) ∧
    (∀ (τ α : Type) (addresses : AddrMap)
      (schemas : List (LogicalSchemaEntry τ)) (st : MCState τ α)
      (er : MCError),
      (registerLogicalSchema addresses schemas st).1 = .error er →
      (registerLogicalSchema addresses schemas st).2.calls = st.calls) := by
  refine ⟨?_, ?_, ?_⟩
  · intro τ α addresses e store sig hsig h1
    exact processEntry_arity_args addresses e store sig hsig h1
  · intro τ α addresses e store sig hsig h1 h2
    exact processEntry_arity_returns addresses e store sig hsig h1 h2
  · intro τ α addresses schemas st er h
    exact registerLogicalSchema_error_calls addresses schemas st er h

/-- C6: merging path entries into the Observable Registry: after
registering a leaf at path `p` and then one at a disjoint path `q`
(neither path is a prefix of the other), both leaves are found at their
paths — object nodes are merged key-by-key recursively; and re-registering
at the identical path replaces the old leaf wholesale with the new one
(last registration wins), with no attempt to combine the two leaves. -/
theorem c6_registry_merge_semantics :
    ∀ (σ : Type) (t : RegTree σ) (p q : List Str) (s s' : σ),
      (¬ p <+: q → ¬ q <+: p →
        lookupReg p (insertPath q (insertPath p t s) s') = some (.leaf s) ∧
        lookupReg q (insertPath q (insertPath p t s) s') = some (.leaf s')) ∧
      lookupReg p (insertPath p (insertPath p t s) s') = some (.leaf s') := by
  intro σ t p q s s'
  refine ⟨fun h1 h2 => ⟨?_, ?_⟩, ?_⟩
  · rw [lookupReg_insertPath_frame q s' p _ h1 h2, lookupReg_insertPath_self]
  · rw [lookupReg_insertPath_self]
  · rw [lookupReg_insertPath_self]

/-- C7 counterexample: a first registration at path `x` returns a
snapshot whose leaf references stream object `0`; a later registration at
the extending path `x.y` grafts a `y` property onto that shared stream
object, so the lookup `x.y` through the PREVIOUSLY obtained snapshot
changes from absent to the newly registered stream — a registry snapshot
previously obtained by a caller is observably mutated by a later
registration, refuting the claim as stated. -/
theorem c7_snapshot_mutation_counterexample :
    registerViewH [] (.node []) ["x".data] "K0".data =
      ([⟨"K0".data, []⟩], .node [("x".data, .leafRef 0)]) ∧
    lookupH [⟨"K0".data, []⟩] ["x".data, "y".data]
      (.node [("x".data, .leafRef 0)]) = none ∧
    (registerViewH [⟨"K0".data, []⟩] (.node [("x".data, .leafRef 0)])
        ["x".data, "y".data] "K1".data).1[0]? =
      some ⟨"K0".data, [("y".data, .leafRef 1)]⟩ ∧
    lookupH (registerViewH [⟨"K0".data, []⟩] (.node [("x".data, .leafRef 0)])
        ["x".data, "y".data] "K1".data).1 ["x".data, "y".data]
      (.node [("x".data, .leafRef 0)]) = some (.leafRef 1) :=
  ⟨rfl, rfl, rfl, rfl⟩

/-- C7 (amended): every registration step allocates a fresh stream object
and rebinds the registry field to a freshly merged snapshot; whenever the
registered observable-key path does not strictly extend a path at which
the current registry holds a stream leaf, no previously allocated stream
object is mutated — the object heap is only extended by the fresh stream
object — so every lookup through any previously obtained snapshot is
unchanged.  When the path does extend an existing stream-leaf path,
lodash grafts the new subtree into the shared stream object and
previously obtained snapshots observably change at the extended path
(see the counterexample). -/
theorem c7_registry_snapshot_conditional_frame :
    ∀ (heap : ObsHeap) (snap : HTree) (p : List Str) (key : Str),
      graftFreeB p snap = true →
      (registerViewH heap snap p key).1 = heap ++ [⟨key, []⟩] ∧
      (∀ i, i < heap.length →
        (registerViewH heap snap p key).1[i]? = heap[i]?) ∧
      (∀ (q : List Str) (t : HTree),
        lookupH (registerViewH heap snap p key).1 q t = lookupH heap q t) := by
  intro heap snap p key hg
  have h1 : (registerViewH heap snap p key).1 = heap ++ [⟨key, []⟩] := by
    unfold registerViewH
    exact mergeH_graftFree_heap heap.length p (heap ++ [⟨key, []⟩]) snap hg
  refine ⟨h1, ?_, ?_⟩
  · intro i hi
    rw [h1]
    exact List.getElem?_append_left hi
  · intro q t
    rw [h1]
    exact lookupH_extend heap key q t

/-- C9: evaluation of `disconnect` on a connected service (one watcher
subscription attached after a `startObservable` call): the method is a
no-op — calling it once or twice changes nothing and raises no error, so
it is trivially idempotent, but it does NOT tear down the Result Stream's
upstream subscription, which stays attached. -/
theorem c9_disconnect_noop :
    startObservable svc0 = .ok (0, ⟨true, 1, 0, none, some 0⟩) ∧
    disconnect ⟨true, 1, 0, none, some 0⟩ = ⟨true, 1, 0, none, some 0⟩ ∧
    disconnect (disconnect ⟨true, 1, 0, none, some 0⟩) =
      disconnect ⟨true, 1, 0, none, some 0⟩ ∧
    (disconnect ⟨true, 1, 0, none, some 0⟩).watcherSubscriptionCount = 1 :=
  ⟨rfl, rfl, rfl, rfl⟩

/-- C4: the call-signature parser fails exactly when the input does not
contain the two expected parenthesized groups (fewer than two `'('`
characters, so splitting yields fewer than three fragments and the JS
destructuring leaves `returnTypes` undefined) or when fewer than one
return type remains after parsing (the processed third fragment is
empty); in particular parsing `f()()` fails with the explicit
malformed-call-signature error. -/
theorem c4_parse_failure_iff :
    (∀ s : Str,
      (∃ e, destructureContractCall s = .error e) ↔
        ((splitOnChar '(' s).length < 3 ∨ (parsedFragments s).getD 2 [] = [])) ∧
    destructureContractCall "f()()".data = .error .malformedCallSignature := by
  constructor
  · intro s
    have hlen : (parsedFragments s).length = (splitOnChar '(' s).length := by
      simp [parsedFragments]
    rcases h : parsedFragments s with _ | ⟨g0, _ | ⟨g1, _ | ⟨g2, rest⟩⟩⟩
    · rw [h] at hlen
      simp only [destructureContractCall, h, List.getD]
      constructor
      · intro _
        left
        simp only [List.length_nil] at hlen
        omega
      · intro _
        exact ⟨.missingGroups, rfl⟩
    · rw [h] at hlen
      simp only [destructureContractCall, h, List.getD]
      constructor
      · intro _
        left
        simp only [List.length_cons, List.length_nil] at hlen
        omega
      · intro _
        exact ⟨.missingGroups, rfl⟩
    · rw [h] at hlen
      simp only [destructureContractCall, h, List.getD]
      constructor
      · intro _
        left
        simp only [List.length_cons, List.length_nil] at hlen
        omega
      · intro _
        exact ⟨.missingGroups, rfl⟩
    · rw [h] at hlen
      simp only [List.length_cons] at hlen
      have hge : ¬ (splitOnChar '(' s).length < 3 := by omega
      simp only [destructureContractCall, h, List.getD, List.getElem?_cons_succ,
        List.getElem?_cons_zero, Option.getD_some]
      by_cases hg2 : g2 = []
      · subst hg2
        simp
      · rw [if_neg (by simpa [List.length_eq_zero] using hg2)]
        simp [hge, hg2]
  · rfl

theorem parsedFragments_two_groups (f a2 a3 : Str)
    (hf : '(' ∉ f) (ha2 : '(' ∉ a2) (ha3 : '(' ∉ a3) :
    parsedFragments (f ++ '(' :: (a2 ++ '(' :: a3)) =
      [(splitOnChar ',' (stripTrailingParen f)).filter (fun x => x ≠ []),
       (splitOnChar ',' (stripTrailingParen a2)).filter (fun x => x ≠ []),
       (splitOnChar ',' (stripTrailingParen a3)).filter (fun x => x ≠ [])] := by
  have hsplit : splitOnChar '(' (f ++ '(' :: (a2 ++ '(' :: a3)) =
      [f, a2, a3] := by
    rw [splitOnChar_sep '(' f _ hf, splitOnChar_sep '(' a2 _ ha2,
      splitOnChar_of_not_mem '(' a3 ha3]
  rw [parsedFragments, hsplit]
  rfl

/-- C8: parsing a well-formed two-group signature `f(a,b)(c,d)` built from
delimiter-free nonempty tokens yields the function name as the one-element
group `[f]`, the argument types `[a, b]` and the return types `[c, d]`;
and a zero-argument group as in `f()(c)` produces an empty fragment that
the empty-token filter discards, yielding `argTypes = []`. -/
theorem c8_parser_valid_signatures :
    (∀ f a b c d : Str, PlainToken f → PlainToken a → PlainToken b →
      PlainToken c → PlainToken d →
      destructureContractCall
        (f ++ '(' :: a ++ ',' :: b ++ ')' :: '(' :: c ++ ',' :: d ++ [')']) =
        .ok ⟨[f], [a, b], [c, d]⟩) ∧
    (∀ f c : Str, PlainToken f → PlainToken c →
      destructureContractCall (f ++ '(' :: ')' :: '(' :: c ++ [')']) =
        .ok ⟨[f], [], [c]⟩) := by
  have dpc : ('(' : Char) ≠ ',' := by decide
  have dpr : ('(' : Char) ≠ ')' := by decide
  constructor
  · intro f a b c d hf ha hb hc hd
    obtain ⟨hfne, hfp, hfr, hfc⟩ := hf
    obtain ⟨hane, hap, har, hac⟩ := ha
    obtain ⟨hbne, hbp, hbr, hbc⟩ := hb
    obtain ⟨hcne, hcp, hcr, hcc⟩ := hc
    obtain ⟨hdne, hdp, hdr, hdc⟩ := hd
    have heq : f ++ '(' :: a ++ ',' :: b ++ ')' :: '(' :: c ++ ',' :: d ++ [')'] =
        f ++ '(' :: ((a ++ ',' :: b ++ [')']) ++
          '(' :: (c ++ ',' :: d ++ [')'])) := by
      simp
    have h2 : '(' ∉ a ++ ',' :: b ++ [')'] := by
      simp [List.mem_append, List.mem_cons, hap, hbp, dpc, dpr]
    have h3 : '(' ∉ c ++ ',' :: d ++ [')'] := by
      simp [List.mem_append, List.mem_cons, hcp, hdp, dpc, dpr]
    have hc1 : (splitOnChar ','
        (stripTrailingParen f)).filter (fun x => x ≠ []) = [f] := by
      rw [stripTrailingParen_of_not_mem f hfr,
        splitOnChar_of_not_mem ',' f hfc]
      exact filter_tokens_single f hfne
    have hc2 : (splitOnChar ','
        (stripTrailingParen (a ++ ',' :: b ++ [')']))).filter
          (fun x => x ≠ []) = [a, b] := by
      have e2 : a ++ ',' :: b ++ [')'] = (a ++ ',' :: b) ++ [')'] := by simp
      rw [e2, stripTrailingParen_concat, splitOnChar_sep ',' a _ hac,
        splitOnChar_of_not_mem ',' b hbc]
      simp [List.filter_cons, hane, hbne]
    have hc3 : (splitOnChar ','
        (stripTrailingParen (c ++ ',' :: d ++ [')']))).filter
          (fun x => x ≠ []) = [c, d] := by
      have e3 : c ++ ',' :: d ++ [')'] = (c ++ ',' :: d) ++ [')'] := by simp
      rw [e3, stripTrailingParen_concat, splitOnChar_sep ',' c _ hcc,
        splitOnChar_of_not_mem ',' d hdc]
      simp [List.filter_cons, hcne, hdne]
    have hfrag : parsedFragments
        (f ++ '(' :: a ++ ',' :: b ++ ')' :: '(' :: c ++ ',' :: d ++ [')']) =
        [[f], [a, b], [c, d]] := by
      rw [heq, parsedFragments_two_groups f _ _ hfp h2 h3, hc1, hc2, hc3]
    unfold destructureContractCall
    rw [hfrag]
    simp
  · intro f c hf hc
    obtain ⟨hfne, hfp, hfr, hfc⟩ := hf
    obtain ⟨hcne, hcp, hcr, hcc⟩ := hc
    have heq : f ++ '(' :: ')' :: '(' :: c ++ [')'] =
        f ++ '(' :: ([')'] ++ '(' :: (c ++ [')'])) := by
      simp
    have h2 : '(' ∉ [')'] := by simp [dpr]
    have h3 : '(' ∉ c ++ [')'] := by
      simp [List.mem_append, hcp, dpr]
    have hc1 : (splitOnChar ','
        (stripTrailingParen f)).filter (fun x => x ≠ []) = [f] := by
      rw [stripTrailingParen_of_not_mem f hfr,
        splitOnChar_of_not_mem ',' f hfc]
      exact filter_tokens_single f hfne
    have hc2 : (splitOnChar ','
        (stripTrailingParen [')'])).filter (fun x => x ≠ []) = [] := rfl
    have hc3 : (splitOnChar ','
        (stripTrailingParen (c ++ [')']))).filter (fun x => x ≠ []) = [c] := by
      rw [stripTrailingParen_concat, splitOnChar_of_not_mem ',' c hcc]
      exact filter_tokens_single c hcne
    have hfrag : parsedFragments (f ++ '(' :: ')' :: '(' :: c ++ [')']) =
        [[f], [], [c]] := by
      rw [heq, parsedFragments_two_groups f _ _ hfp h2 h3, hc1, hc2, hc3]
    unfold destructureContractCall
    rw [hfrag]
    simp

/-- C5: for every valid logical schema entry, the call descriptor appended
to the batch executor's call list is exactly the record whose `target` is
the alias-resolved contract address for `contractName`, whose `call` list
is the contract-call string followed by each call argument transformed by
its optional per-argument function (the argument itself when no function
is given), and whose `returns` are the ordered pairs of the
fully-qualified return key — the Call Key followed by `'.'` and the
return key — with the optional transform. -/
theorem c5_call_descriptor_exact :
    ∀ (τ α : Type) (addresses : AddrMap) (e : LogicalSchemaEntry τ)
      (st : MCState τ α) (sig : CallSignature),
      destructureContractCall e.contractCall = .ok sig →
      sig.callTypes.length = e.callArgs.length →
      sig.returnTypes.length = e.returnKeys.length →
      e.observableKeys.length ≤ e.returnKeys.length →
      (registerLogicalSchema addresses [e] st).2.calls =
        st.calls ++
          [⟨aliasAddresses addresses e.contractName,
            e.contractCall ::
              e.callArgs.map (fun a =>
                match a.2 with
                | none => a.1
                | some cb => cb a.1),
            e.returnKeys.map (fun rk =>
              (callKeyStructure e sig ++ '.' :: rk.1, rk.2))⟩] := by
  intro τ α addresses e st sig hsig h1 h2 h3
  rw [registerLogicalSchema_single_ok addresses e st sig hsig h1 h2 h3]
  rfl

/-- C1: for every logical schema entry accepted by `registerLogicalSchema`
and every index into its `observableKeys` (decomposed as
`pre ++ p :: post`, with the later paths not overlapping `p`), the
registry after registration holds at path `p` exactly the filtered view of
the Result Stream keyed by the fully-qualified return key at that index;
in particular, after registering the spec's example schema, the value `42`
of a Result Event typed `X.bal.0xabc.balance` is observable at registry
path `["x", "balance"]`. -/
theorem c1_filtered_view_registration :
    (∀ (τ α : Type) (addresses : AddrMap) (e : LogicalSchemaEntry τ)
      (st : MCState τ α) (sig : CallSignature)
      (pre : List (List Str)) (p : List Str) (post : List (List Str))
      (rk : Str × Option τ),
      destructureContractCall e.contractCall = .ok sig →
      sig.callTypes.length = e.callArgs.length →
      sig.returnTypes.length = e.returnKeys.length →
      e.observableKeys.length ≤ e.returnKeys.length →
      e.observableKeys = pre ++ p :: post →
      (processedReturnKeys e sig)[pre.length]? = some rk →
      (∀ q ∈ post, ¬ p <+: q ∧ ¬ q <+: p) →
      lookupReg p
        (registerLogicalSchema addresses [e] st).2.observableStore =
        some (.leaf (.filtered rk.1))) ∧
    lookupReg ["x".data, "balance".data]
      (registerLogicalSchema exAddrs [exEntry] st0).2.observableStore =
      some (.leaf (.filtered "X.bal.0xabc.balance".data)) ∧
    observeFiltered "X.bal.0xabc.balance".data
      [⟨"X.bal.0xabc.balance".data, (42 : Nat)⟩] = [42] := by
  refine ⟨?_, rfl, rfl⟩
  intro τ α addresses e st sig pre p post rk hsig h1 h2 h3 hsplit hrk hdisj
  rw [registerLogicalSchema_single_ok addresses e st sig hsig h1 h2 h3]
  show lookupReg p
      (registerViews (processedReturnKeys e sig)
        e.observableKeys 0 st.observableStore).2 =
    some (.leaf (.filtered rk.1))
  rw [hsplit]
  refine registerViews_lookup (processedReturnKeys e sig) pre p post 0
    st.observableStore rk ?_ ?_ hdisj
  · simpa using hrk
  · have hlen : (processedReturnKeys e sig).length = e.returnKeys.length := by
      simp [processedReturnKeys]
    have hobs : (pre ++ p :: post).length = e.observableKeys.length := by
      rw [hsplit]
    omega

/-- C10: `startObservable` throws when no watcher has been created;
otherwise every call returns the same root replay stream while attaching
a fresh watcher subscription, because the handle is stored in the field
`rootSubcription` while the null-guard checks `rootSubscription`, which
stays `null` forever — so after `n` calls from a fresh watcher state a
single update batch is delivered to the root stream `n` times. -/
theorem c10_startObservable_resubscribes :
    (∀ s : SvcState, s.watcherDefined = false →
      startObservable s = .error .watcherNotDefined) ∧
    (∀ s : SvcState, s.watcherDefined = true → s.rootSubscription = none →
      startObservable s = .ok (s.rootObservableId,
        { s with
          watcherSubscriptionCount := s.watcherSubscriptionCount + 1,
          rootSubcription := some s.watcherSubscriptionCount })) ∧
    (∀ n : Nat, ∃ s', startObservableIter n svc0 = .ok s' ∧
      s'.rootObservableId = svc0.rootObservableId ∧
      s'.rootSubscription = none ∧
      s'.watcherSubscriptionCount = n ∧
      ∀ u : Nat, pollDeliveries s' u = List.replicate n u) := by
  refine ⟨?_, ?_, ?_⟩
  · intro s h
    simp [startObservable, h]
  · intro s h1 h2
    simp [startObservable, h1, h2]
  · intro n
    obtain ⟨s', hiter, hcount, hsub, _, hid⟩ :=
      startObservableIter_ok n svc0 rfl rfl
    refine ⟨s', hiter, hid, hsub, ?_, ?_⟩
    · simpa [svc0] using hcount
    · intro u
      have hc : s'.watcherSubscriptionCount = n := by simpa [svc0] using hcount
      simp [pollDeliveries, hc]

/-- Witness for C1: the universal part instantiated at the spec's example
schema entry recovers the concrete registry content. -/
theorem c1_filtered_view_registration_witness :
    lookupReg ["x".data, "balance".data]
      (registerLogicalSchema exAddrs [exEntry] st0).2.observableStore =
      some (.leaf (.filtered "X.bal.0xabc.balance".data)) :=
  c1_filtered_view_registration.1 Nat Nat exAddrs exEntry st0
    ⟨["bal".data], ["addr".data], ["uint".data]⟩
    [] ["x".data, "balance".data] [] ("X.bal.0xabc.balance".data, none)
    rfl rfl rfl (by decide) rfl rfl
    (fun q hq => absurd hq (List.not_mem_nil q))

/-- Witness for C2: a missing dependency leaves the state untouched, a
present dependency merges the combined stream at the entry's path. -/
theorem c2_derived_schema_skip_or_merge_witness :
    registerDerivedSchema [exDerivedMissing] stA = stA ∧
    (registerDerivedSchema [exDerivedOk] stA).observableStore =
      insertPath ["q".data] stA.observableStore (.derivedStream 7) :=
  ⟨(c2_derived_schema_skip_or_merge Nat Nat stA exDerivedMissing).1
      ⟨["zz".data], by simp [exDerivedMissing], rfl⟩,
   (c2_derived_schema_skip_or_merge Nat Nat stA exDerivedOk).2
      [.leaf (.filtered "k".data)] rfl⟩

/-- Witness for C3: the amended theorem applied at the arity-mismatch
entry and at the failing two-entry registration call. -/
theorem c3_arity_transactional_submission_witness :
    processEntry (aliasAddresses exAddrs) exBadEntry
      (RegTree.node ([] : List (Str × RegTree (LeafStream Nat)))) =
      (.error .arityCallArgs, RegTree.node []) ∧
    (registerLogicalSchema exAddrs [exEntry, exBadEntry] st0).2.calls =
      st0.calls :=
  ⟨c3_arity_transactional_submission.1 Nat Nat (aliasAddresses exAddrs)
      exBadEntry (RegTree.node []) ⟨["foo".data], ["addr".data], ["uint".data]⟩
      rfl (by decide),
   c3_arity_transactional_submission.2.2 Nat Nat exAddrs
      [exEntry, exBadEntry] st0 .arityCallArgs rfl⟩

/-- Witness for C4: the failure characterisation applied at `f(a)`, a
string with a single parenthesized group. -/
theorem c4_parse_failure_iff_witness :
    ∃ e, destructureContractCall "f(a)".data = .error e :=
  (c4_parse_failure_iff.1 "f(a)".data).mpr (Or.inl (by decide))

/-- Witness for C5: the descriptor produced for the example schema
entry. -/
theorem c5_call_descriptor_exact_witness :
    (registerLogicalSchema exAddrs [exEntry] st0).2.calls =
      st0.calls ++
        [⟨some "0xX".data, ["bal(addr)(uint)".data, "0xabc".data],
          [("X.bal.0xabc.balance".data, none)]⟩] :=
  c5_call_descriptor_exact Nat Nat exAddrs exEntry st0
    ⟨["bal".data], ["addr".data], ["uint".data]⟩ rfl rfl rfl (by decide)

/-- Witness for C6: disjoint-path preservation and same-path replacement
on a concrete two-insertion registry. -/
theorem c6_registry_merge_semantics_witness :
    lookupReg [['a']] (insertPath [['b']]
      (insertPath [['a']] (RegTree.node ([] : List (Str × RegTree Nat))) 0) 1) =
      some (.leaf 0) ∧
    lookupReg [['b']] (insertPath [['b']]
      (insertPath [['a']] (RegTree.node ([] : List (Str × RegTree Nat))) 0) 1) =
      some (.leaf 1) ∧
    lookupReg [['a']] (insertPath [['a']]
      (insertPath [['a']] (RegTree.node ([] : List (Str × RegTree Nat))) 0) 2) =
      some (.leaf 2) :=
  ⟨((c6_registry_merge_semantics Nat (.node []) [['a']] [['b']] 0 1).1
      (by decide) (by decide)).1,
   ((c6_registry_merge_semantics Nat (.node []) [['a']] [['b']] 0 1).1
      (by decide) (by decide)).2,
   (c6_registry_merge_semantics Nat (.node []) [['a']] [['b']] 0 2).2⟩

/-- Witness for C7 (amended): a registration at the graft-free path `z`
leaves the lookup `x.y` through the previously obtained snapshot
unchanged. -/
theorem c7_registry_snapshot_conditional_frame_witness :
    lookupH (registerViewH [⟨"K0".data, []⟩] (.node [("x".data, .leafRef 0)])
        ["z".data] "K2".data).1 ["x".data, "y".data]
      (.node [("x".data, .leafRef 0)]) =
    lookupH [⟨"K0".data, []⟩] ["x".data, "y".data]
      (.node [("x".data, .leafRef 0)]) :=
  (c7_registry_snapshot_conditional_frame [⟨"K0".data, []⟩]
    (.node [("x".data, .leafRef 0)]) ["z".data] "K2".data (by decide)).2.2
    ["x".data, "y".data] (.node [("x".data, .leafRef 0)])

/-- Witness for C8: the two parser shapes applied at concrete tokens. -/
theorem c8_parser_valid_signatures_witness :
    destructureContractCall
      ("f".data ++ '(' :: "a".data ++ ',' :: "b".data ++ ')' :: '(' ::
        "c".data ++ ',' :: "d".data ++ [')']) =
      .ok ⟨["f".data], ["a".data, "b".data], ["c".data, "d".data]⟩ ∧
    destructureContractCall
      ("g".data ++ '(' :: ')' :: '(' :: "u".data ++ [')']) =
      .ok ⟨["g".data], [], ["u".data]⟩ :=
  ⟨c8_parser_valid_signatures.1 "f".data "a".data "b".data "c".data "d".data
      (by decide) (by decide) (by decide) (by decide) (by decide),
   c8_parser_valid_signatures.2 "g".data "u".data (by decide) (by decide)⟩

/-- Witness for C10: the throw without a watcher and the re-subscription
behaviour of a connected call. -/
theorem c10_startObservable_resubscribes_witness :
    startObservable ⟨false, 0, 0, none, none⟩ = .error .watcherNotDefined ∧
    startObservable svc0 = .ok (svc0.rootObservableId,
      { svc0 with
        watcherSubscriptionCount := svc0.watcherSubscriptionCount + 1,
        rootSubcription := some svc0.watcherSubscriptionCount }) :=
  ⟨c10_startObservable_resubscribes.1 ⟨false, 0, 0, none, none⟩ rfl,
   c10_startObservable_resubscribes.2.1 svc0 rfl rfl⟩

end Multicall
